import Mathlib

/-!
Shallow embedding of `analyze_spot_and_temperature.py`: filename timestamp
parsing, the locale-quirky numeric normalizer, the spot-position loader,
the temperature loader with column inference, and the nearest-time
alignment performed by `pd.merge_asof(..., direction="nearest")`.

Conventions of the embedding:
* instants are modelled as whole seconds (an `Int`); the one-minute cadence
  of the spot file becomes `+ 60 * frame_index`;
* floating-point cell values are modelled as exact rationals; the pandas
  `NaN` sentinel is modelled as `none` in an `Option ℚ`, and NaN-propagating
  arithmetic propagates `none`;
* a raised Python exception is modelled as `none`/a dedicated error
  constructor of the surrounding `Option`/outcome type;
* `float(...)` / `pd.to_numeric` are modelled on fixed-point decimal
  literals with optional sign; exponent forms, underscore separators and
  the `inf`/`nan` spellings accepted by Python are outside the modelled
  grammar (no claim depends on them), and `\d` of the Python regexes is
  modelled as the ASCII digits.
-/

namespace SpotTemp

/-- Numeric value of an ASCII digit character, or `10` for any other character. -/
def digitVal (c : Char) : Nat :=
  if 48 ≤ c.toNat ∧ c.toNat ≤ 57 then c.toNat - 48 else 10

/-- Whether a character is an ASCII digit (what `\d` matches in the modelled fragment). -/
def isDigitChar (c : Char) : Bool := digitVal c < 10

/-- The ASCII digit character for a value below ten. -/
def digitChar (n : Nat) : Char :=
  if n = 0 then '0' else if n = 1 then '1' else if n = 2 then '2' else if n = 3 then '3'
  else if n = 4 then '4' else if n = 5 then '5' else if n = 6 then '6' else if n = 7 then '7'
  else if n = 8 then '8' else if n = 9 then '9' else '*'

theorem char_eq_of_toNat_eq {a b : Char} (h : a.toNat = b.toNat) : a = b := by
  apply Char.eq_of_val_eq
  apply UInt32.eq_of_toBitVec_eq
  apply BitVec.eq_of_toNat_eq
  exact h

/-- Value of a digit string read most-significant first (what `int(...)` computes
on the all-digit strings produced by the regex groups). -/
def natOfDigits (ds : List Char) : Nat := ds.foldl (fun a c => 10 * a + digitVal c) 0

/-- Zero-padded decimal rendering of `n` on exactly `k` digit characters
(the `strftime`-style formatting of a date/time component). -/
def padDigits : Nat → Nat → List Char
  | 0, _ => []
  | k + 1, n => padDigits k (n / 10) ++ [digitChar (n % 10)]

theorem digitChar_digitVal {c : Char} (h : isDigitChar c = true) :
    digitChar (digitVal c) = c := by
  have hb : 48 ≤ c.toNat ∧ c.toNat ≤ 57 := by
    by_contra hc
    simp [isDigitChar, digitVal, hc] at h
  obtain ⟨h1, h2⟩ := hb
  have hv : digitVal c = c.toNat - 48 := by simp [digitVal, h1, h2]
  rw [hv]
  apply char_eq_of_toNat_eq
  interval_cases h : c.toNat <;> simp [digitChar]

theorem digitVal_lt_ten {c : Char} (h : isDigitChar c = true) : digitVal c < 10 := by
  simpa [isDigitChar] using h

theorem natOfDigits_append_singleton (ds : List Char) (c : Char) :
    natOfDigits (ds ++ [c]) = 10 * natOfDigits ds + digitVal c := by
  simp [natOfDigits, List.foldl_append]

/-- Padding inverts digit-string reading: rendering `natOfDigits ds` on
`ds.length` digits reproduces `ds` exactly. -/
theorem padDigits_natOfDigits : ∀ ds : List Char, (∀ c ∈ ds, isDigitChar c = true) →
    padDigits ds.length (natOfDigits ds) = ds := by
  intro ds
  induction ds using List.reverseRecOn with
  | nil => intro _; rfl
  | append_singleton ds c ih =>
    intro hall
    have hc : isDigitChar c = true := hall c (by simp)
    have hds : ∀ x ∈ ds, isDigitChar x = true := fun x hx => hall x (by simp [hx])
    have hv : digitVal c < 10 := digitVal_lt_ten hc
    rw [natOfDigits_append_singleton]
    have hlen : (ds ++ [c]).length = ds.length + 1 := by simp
    rw [hlen]
    show padDigits ds.length ((10 * natOfDigits ds + digitVal c) / 10) ++
        [digitChar ((10 * natOfDigits ds + digitVal c) % 10)] = ds ++ [c]
    have hdiv : (10 * natOfDigits ds + digitVal c) / 10 = natOfDigits ds := by omega
    have hmod : (10 * natOfDigits ds + digitVal c) % 10 = digitVal c := by omega
    rw [hdiv, hmod, ih hds, digitChar_digitVal hc]

/-! Calendar model backing `datetime.strptime(..., "%Y%m%d%H%M%S")` and the
derived absolute instants. -/

structure DateTime where
  year : Nat
  month : Nat
  day : Nat
  hour : Nat
  minute : Nat
  second : Nat
deriving DecidableEq, Repr

/-- Gregorian leap-year rule, as implemented by Python's `datetime`. -/
def isLeapYear (y : Nat) : Bool := y % 4 = 0 ∧ (y % 100 ≠ 0 ∨ y % 400 = 0)

/-- Number of days of a month of the proleptic Gregorian calendar. -/
def daysInMonth (y m : Nat) : Nat :=
  if m = 2 then (if isLeapYear y then 29 else 28)
  else if m = 4 ∨ m = 6 ∨ m = 9 ∨ m = 11 then 30 else 31

/-- Validity of the parsed components, combining the range constraints of the
`_strptime` regexes with those of the `datetime` constructor (year 1-9999,
valid month/day, hour below 24, minute and second below 60). -/
def validDateTime (dt : DateTime) : Bool :=
  1 ≤ dt.year ∧ dt.year ≤ 9999 ∧ 1 ≤ dt.month ∧ dt.month ≤ 12 ∧
    1 ≤ dt.day ∧ dt.day ≤ daysInMonth dt.year dt.month ∧
    dt.hour ≤ 23 ∧ dt.minute ≤ 59 ∧ dt.second ≤ 59

/-- Day count of a valid Gregorian date (year at least 1), counted from the
era origin of the shifted civil calendar; used only to give every valid
`DateTime` a definite absolute instant. -/
def daysFromCivil (y m d : Nat) : Nat :=
  let y2 := if m ≤ 2 then y - 1 else y
  let era := y2 / 400
  let yoe := y2 % 400
  let doy := (153 * (if 2 < m then m - 3 else m + 9) + 2) / 5 + d - 1
  let doe := yoe * 365 + yoe / 4 - yoe / 100 + doy
  era * 146097 + doe

/-- Absolute instant of a `DateTime` in whole seconds. -/
def dtToAbsSeconds (dt : DateTime) : Int :=
  86400 * (daysFromCivil dt.year dt.month dt.day : Int) +
    3600 * (dt.hour : Int) + 60 * (dt.minute : Int) + (dt.second : Int)

/-! Spot filename parsing: `SPOT_FILENAME_PATTERN = spot_position_(\d{8})_(\d{6})\.txt$`
applied with `re.search`, followed by `datetime.strptime`. -/

/-- Python's `$` anchor also matches just before one trailing newline; the
matched region must otherwise end at the end of the string. -/
def stripTrailingNL (cs : List Char) : List Char :=
  if cs.getLast? = some '\n' then cs.dropLast else cs

/-- Model of `SPOT_FILENAME_PATTERN.search(name)`: the pattern is anchored at
the end and has fixed width 33, so a match exists exactly when the last 33
characters (before an optional trailing newline) have the literal/digit
shape; returns the two capture groups. -/
def matchSpotName (name : String) : Option (List Char × List Char) :=
  let cs := stripTrailingNL name.data
  let n := cs.length
  if n < 33 then none
  else
    let tail := cs.drop (n - 33)
    let d8 := (tail.drop 14).take 8
    let d6 := (tail.drop 23).take 6
    if tail.take 14 = "spot_position_".data ∧ d8.all isDigitChar = true ∧
        (tail.drop 22).take 1 = ['_'] ∧ d6.all isDigitChar = true ∧
        tail.drop 29 = ".txt".data then
      some (d8, d6)
    else none

/-- Components encoded by the two digit groups, split as the greedy
`_strptime` regex splits them (4-2-2 and 2-2-2). -/
def dtOfDigits (d8 d6 : List Char) : DateTime :=
  { year := natOfDigits (d8.take 4)
    month := natOfDigits ((d8.drop 4).take 2)
    day := natOfDigits (d8.drop 6)
    hour := natOfDigits (d6.take 2)
    minute := natOfDigits ((d6.drop 2).take 2)
    second := natOfDigits (d6.drop 4) }

/-- Outcome of `parse_spot_start_datetime`: `formatError` models the
`ValueError` raised with the "does not match" message when the regex fails,
`dateError` models the `ValueError` raised by `strptime`/`datetime` when the
matched digits are not a valid calendar instant. -/
inductive SpotParseOutcome where
  | formatError
  | dateError
  | ok (dt : DateTime)
deriving DecidableEq, Repr

/-- Model of `parse_spot_start_datetime`. -/
def parse_spot_start_datetime (name : String) : SpotParseOutcome :=
  match matchSpotName name with
  | none => .formatError
  | some (d8, d6) =>
    let dt := dtOfDigits d8 d6
    if validDateTime dt then .ok dt else .dateError

/-! Numeric normalizer: `clean_number`. -/

/-- ASCII whitespace stripped by `str.strip()` (the non-ASCII whitespace
Python also strips does not occur in the data model). -/
def isPyWs (c : Char) : Bool :=
  c = ' ' ∨ c = '\t' ∨ c = '\n' ∨ c = '\x0d' ∨ c = '\x0b' ∨ c = '\x0c'

/-- Model of `str.strip()`. -/
def stripWs (cs : List Char) : List Char :=
  ((cs.dropWhile isPyWs).reverse.dropWhile isPyWs).reverse

/-- Model of `text.replace(",", ".")`. -/
def replaceCommaDot (cs : List Char) : List Char :=
  cs.map (fun c => if c = ',' then '.' else c)

/-- Model of the repeated-dot fix-up: when more than one dot is present, keep
everything up to and including the first dot (`text[: first_dot + 1]`) and
strip every dot from the remainder (`text[first_dot + 1 :].replace(".", "")`). -/
def dedupDots (t : List Char) : List Char :=
  if 1 < t.count '.' then
    let i := t.findIdx (· = '.')
    t.take (i + 1) ++ (t.drop (i + 1)).filter (· ≠ '.')
  else t

/-- Fixed-point decimal literal without sign: an integer part and an optional
fractional part around a single dot, at least one digit overall.  This is the
fragment of `float(text)` exercised by the program. -/
def parseUnsignedDec (cs : List Char) : Option ℚ :=
  let ip := cs.takeWhile (· ≠ '.')
  match cs.dropWhile (· ≠ '.') with
  | [] => if ip ≠ [] ∧ ip.all isDigitChar = true then some ((natOfDigits ip : ℚ)) else none
  | _ :: fp =>
    if ip.all isDigitChar = true ∧ fp.all isDigitChar = true ∧ (ip ≠ [] ∨ fp ≠ []) then
      some ((natOfDigits ip : ℚ) + (natOfDigits fp : ℚ) / (10 : ℚ) ^ fp.length)
    else none

/-- Decimal literal with an optional sign, as accepted by `float(text)`
restricted to fixed-point notation. -/
def parseFloatLit (cs : List Char) : Option ℚ :=
  match cs with
  | '+' :: rest => parseUnsignedDec rest
  | '-' :: rest => (parseUnsignedDec rest).map (fun q => -q)
  | _ => parseUnsignedDec cs

/-- Result of `clean_number` on a non-missing token: either a numeric value
or the float NaN produced for NaN cell inputs. -/
inductive NumValue where
  | nan
  | val (q : ℚ)
deriving DecidableEq, Repr

/-- Model of `clean_number`.  The input `none` models a cell for which
`pd.isna(value)` holds; the result `none` models the `ValueError` raised by
`float` on a token that is still malformed after normalization
(`NumericParseError`). -/
def clean_number (cell : Option String) : Option NumValue :=
  match cell with
  | none => some .nan
  | some s =>
    let t := dedupDots (replaceCommaDot (stripWs s.data))
    (parseFloatLit t).map .val

/-! Spot position loader: `load_spot_positions`. -/

/-- Sequential map with fail-fast error propagation, the behaviour of the
column-wise `Series.apply(clean_number)` (a raised exception aborts). -/
def mapMOpt (f : α → Option β) : List α → Option (List β)
  | [] => some []
  | a :: l =>
    match f a, mapMOpt f l with
    | some b, some l2 => some (b :: l2)
    | _, _ => none

/-- One row of the whitespace-delimited spot table after `read_csv` and the
`astype(int)` coercion of `frame_index`; each parameter cell is either a
pandas NA (`none`) or the raw textual token. -/
structure RawSpotRow where
  frame_index : Int
  center_x_mm : Option String
  center_y_mm : Option String
  minor_axis_mm : Option String
  major_axis_mm : Option String
  angle_deg : Option String
deriving DecidableEq, Repr

/-- A numeric cell after `clean_number`: `none` is the float NaN. -/
abbrev NumCell := Option ℚ

/-- Run `clean_number` on one cell; the outer `none` is the aborting
`NumericParseError`, the inner `none` is NaN. -/
def cleanCell (cell : Option String) : Option NumCell :=
  (clean_number cell).map (fun v => match v with | .nan => none | .val q => some q)

structure CleanSpotRow where
  frame_index : Int
  x : NumCell
  y : NumCell
  minor : NumCell
  major : NumCell
  angle : NumCell
deriving DecidableEq, Repr

def cleanSpotRow (r : RawSpotRow) : Option CleanSpotRow :=
  match cleanCell r.center_x_mm, cleanCell r.center_y_mm, cleanCell r.minor_axis_mm,
      cleanCell r.major_axis_mm, cleanCell r.angle_deg with
  | some x, some y, some mi, some ma, some an =>
    some { frame_index := r.frame_index, x := x, y := y, minor := mi, major := ma, angle := an }
  | _, _, _, _, _ => none

/-- NaN-propagating squared planar distance
`(x - rx) ** 2 + (y - ry) ** 2`. -/
def rsqShift (x y rx ry : NumCell) : NumCell :=
  match x, y, rx, ry with
  | some x, some y, some rx, some ry => some ((x - rx) ^ 2 + (y - ry) ^ 2)
  | _, _, _, _ => none

/-- One produced record with the two derived columns. -/
structure SpotFrame where
  frame_index : Int
  center_x_mm : NumCell
  center_y_mm : NumCell
  minor_axis_mm : NumCell
  major_axis_mm : NumCell
  angle_deg : NumCell
  timestamp : Int
  r_squared_shift_mm2 : NumCell
deriving DecidableEq, Repr

def mkSpotFrame (dt : DateTime) (first r : CleanSpotRow) : SpotFrame :=
  { frame_index := r.frame_index
    center_x_mm := r.x
    center_y_mm := r.y
    minor_axis_mm := r.minor
    major_axis_mm := r.major
    angle_deg := r.angle
    timestamp := dtToAbsSeconds dt + 60 * r.frame_index
    r_squared_shift_mm2 := rsqShift r.x r.y first.x first.y }

/-- Model of `load_spot_positions`: parse the start instant from the filename,
clean the five parameter columns, then derive `timestamp` (start plus
`frame_index` minutes) and `r_squared_shift_mm2` (squared distance from the
first row's center, looked up with `.at[0, ...]`, which raises on an empty
table).  `none` models any raised exception. -/
def load_spot_positions (name : String) (rows : List RawSpotRow) : Option (List SpotFrame) :=
  match parse_spot_start_datetime name with
  | .ok dt =>
    match mapMOpt cleanSpotRow rows with
    | none => none
    | some [] => none
    | some (first :: rest) => some ((first :: rest).map (mkSpotFrame dt first))
  | _ => none

/-! Temperature loader: `_identify_temperature_columns` and
`load_temperature_data`. -/

/-- Case-insensitive substring test (`key in col.lower()`), on
lower-cased character lists. -/
def containsSub (pat : List Char) : List Char → Bool
  | [] => pat.isEmpty
  | c :: rest => pat.isPrefixOf (c :: rest) || containsSub pat rest

def lowerChars (s : String) : List Char := s.data.map Char.toLower

/-- The timestamp-column predicate of the loader:
name contains "time" or "date", or equals "timestamp" (case-insensitive). -/
def isTimeLikeName (s : String) : Bool :=
  containsSub "time".data (lowerChars s) || containsSub "date".data (lowerChars s) ||
    lowerChars s = "timestamp".data

/-- The temperature-column predicate: name contains "temp", "deg" or
"celsius" (case-insensitive). -/
def isTempLikeName (s : String) : Bool :=
  containsSub "temp".data (lowerChars s) || containsSub "deg".data (lowerChars s) ||
    containsSub "celsius".data (lowerChars s)

/-- One column of the temperature table as `read_csv` produced it: its header
name and whether `pd.api.types.is_numeric_dtype` holds for it. -/
structure TempCol where
  name : String
  numeric : Bool
deriving DecidableEq, Repr

/-- Model of `_identify_temperature_columns`, operating on the column list.
Note the fallback for the value column excludes every member of
`timestamp_candidates`, not merely the selected timestamp column.  `none`
models the raised `ValueError` (and the `IndexError` of `df.columns[0]` on a
zero-column frame, which cannot arise from `read_csv`). -/
def identify_temperature_columns (cols : List TempCol) : Option (String × String) :=
  let names := cols.map (·.name)
  let tsCands := if (names.filter isTimeLikeName).isEmpty then names.take 1
    else names.filter isTimeLikeName
  let valCands := if (names.filter (fun n => !tsCands.contains n && isTempLikeName n)).isEmpty
    then (cols.filter (fun c => !tsCands.contains c.name && c.numeric)).map (·.name)
    else names.filter (fun n => !tsCands.contains n && isTempLikeName n)
  match tsCands, valCands with
  | t :: _, v :: _ => some (t, v)
  | _, _ => none

/-- Model of `pandas.to_datetime` on a single cell, restricted to the ISO
shape `YYYY-MM-DD HH:MM:SS`; every other non-missing string raises (the
call site passes no `errors="coerce"`). -/
def parseTimestampISO (s : String) : Option Int :=
  match s.data with
  | [y1, y2, y3, y4, '-', m1, m2, '-', d1, d2, ' ', h1, h2, ':', mi1, mi2, ':', s1, s2] =>
    if ([y1, y2, y3, y4, m1, m2, d1, d2, h1, h2, mi1, mi2, s1, s2].all isDigitChar) = true then
      let dt : DateTime :=
        { year := natOfDigits [y1, y2, y3, y4], month := natOfDigits [m1, m2]
          day := natOfDigits [d1, d2], hour := natOfDigits [h1, h2]
          minute := natOfDigits [mi1, mi2], second := natOfDigits [s1, s2] }
      if validDateTime dt then some (dtToAbsSeconds dt) else none
    else none
  | _ => none

/-- The temperature table: columns plus rows of raw cells (`none` is a
pandas NA cell). -/
structure TempTable where
  cols : List TempCol
  rows : List (List (Option String))
deriving DecidableEq, Repr

def getCell (row : List (Option String)) (i : Nat) : Option String :=
  (row.get? i).getD none

/-- Model of `pd.to_datetime` on one cell: NA becomes NaT (`some none`),
an unparseable string raises (`none`). -/
def toDatetimeCell (c : Option String) : Option (Option Int) :=
  match c with
  | none => some none
  | some s => (parseTimestampISO s).map some

/-- Model of `pd.to_numeric(..., errors="coerce")` on one cell: never raises,
unparseable cells and NA cells become NaN (`none`). -/
def toNumericCell (c : Option String) : Option ℚ :=
  match c with
  | none => none
  | some s => parseFloatLit (stripWs s.data)

def colIndex (cols : List TempCol) (n : String) : Nat := cols.findIdx (·.name = n)

/-- A row of the loader output: parsed timestamp (`none` would be NaT) and
parsed temperature (`none` would be NaN); `dropna` removes any `none`. -/
abbrev TempRow := Option Int × Option ℚ

def tempRowKey (p : TempRow) : Int := p.1.getD 0

/-- Model of `load_temperature_data`: infer the two columns, parse the
timestamp column (raising on present-but-unparseable cells), coerce the
temperature column, drop rows where either field is missing, and sort
ascending by timestamp. -/
def load_temperature_data (t : TempTable) : Option (List TempRow) :=
  match identify_temperature_columns t.cols with
  | none => none
  | some (tsName, vName) =>
    match mapMOpt (fun row => toDatetimeCell (getCell row (colIndex t.cols tsName))) t.rows with
    | none => none
    | some tsVals =>
      let vVals := t.rows.map (fun row => toNumericCell (getCell row (colIndex t.cols vName)))
      let kept := (tsVals.zip vVals).filter (fun p => p.1.isSome && p.2.isSome)
      some (kept.insertionSort (fun a b => tempRowKey a ≤ tempRowKey b))

/-! Time aligner: the `pd.merge_asof(spot.sort_values("timestamp"),
temp.sort_values("timestamp"), on="timestamp", direction="nearest")` call in
`plot_r2_vs_temperature`. -/

/-- One temperature reading as consumed by the aligner. -/
structure TemperatureReading where
  ts : Int
  temperature_C : ℚ
deriving DecidableEq, Repr

def sortSpot (l : List SpotFrame) : List SpotFrame :=
  l.insertionSort (fun a b => a.timestamp ≤ b.timestamp)

def sortTemps (l : List TemperatureReading) : List TemperatureReading :=
  l.insertionSort (fun a b => a.ts ≤ b.ts)

/-- Backward asof candidate: the last reading at or before `t`
(on a timestamp-sorted list). -/
def asofBack (t : Int) (L : List TemperatureReading) : Option TemperatureReading :=
  (L.filter (fun r => decide (r.ts ≤ t))).getLast?

/-- Forward asof candidate: the first reading at or after `t`
(on a timestamp-sorted list). -/
def asofFwd (t : Int) (L : List TemperatureReading) : Option TemperatureReading :=
  (L.filter (fun r => decide (t ≤ r.ts))).head?

/-- Nearest-direction asof selection; an exact distance tie favours the
backward (earlier) candidate, as in pandas. -/
def asofNearest (t : Int) (L : List TemperatureReading) : Option TemperatureReading :=
  match asofBack t L, asofFwd t L with
  | none, none => none
  | some b, none => some b
  | none, some f => some f
  | some b, some f => if t - b.ts ≤ f.ts - t then some b else some f

/-- Model of the `merge_asof` call: both inputs are sorted by timestamp
inside the aligner, and every (sorted) spot frame is paired with the
nearest reading; `none` in the second component is the NaN fill used when
the right side is empty. -/
def merge_asof_nearest (spot : List SpotFrame) (temps : List TemperatureReading) :
    List (SpotFrame × Option TemperatureReading) :=
  (sortSpot spot).map (fun s => (s, asofNearest s.timestamp (sortTemps temps)))

/-! Helper lemmas about the repeated-dot fix-up. -/

theorem mem_of_mem_dedupDots {x : Char} {t : List Char} (h : x ∈ dedupDots t) : x ∈ t := by
  unfold dedupDots at h
  split at h
  · rcases List.mem_append.1 h with h1 | h1
    · exact List.mem_of_mem_take h1
    · exact List.mem_of_mem_drop (List.mem_of_mem_filter h1)
  · exact h

theorem dedupDots_split {t : List Char} (h : '.' ∈ t) :
    t.take (t.findIdx (· = '.') + 1) = t.takeWhile (· ≠ '.') ++ ['.'] ∧
      t.drop (t.findIdx (· = '.') + 1) = (t.dropWhile (· ≠ '.')).tail := by
  induction t with
  | nil => cases h
  | cons c t ih =>
    by_cases hc : c = '.'
    · subst hc
      refine ⟨?_, ?_⟩ <;> simp [List.findIdx_cons, List.takeWhile, List.dropWhile]
    · have hmem : '.' ∈ t := by
        rcases List.mem_cons.1 h with h1 | h1
        · exact absurd h1.symm hc
        · exact h1
      obtain ⟨ih1, ih2⟩ := ih hmem
      have hfi : (c :: t).findIdx (· = '.') = t.findIdx (· = '.') + 1 := by
        simp [List.findIdx_cons, hc]
      refine ⟨?_, ?_⟩
      · rw [hfi]
        show c :: t.take (t.findIdx (· = '.') + 1) = (c :: t).takeWhile (· ≠ '.') ++ ['.']
        have : (c :: t).takeWhile (· ≠ '.') = c :: t.takeWhile (· ≠ '.') := by
          simp [List.takeWhile, hc]
        rw [this, ih1]
        rfl
      · rw [hfi]
        show t.drop (t.findIdx (· = '.') + 1) = ((c :: t).dropWhile (· ≠ '.')).tail
        have : (c :: t).dropWhile (· ≠ '.') = t.dropWhile (· ≠ '.') := by
          simp [List.dropWhile, hc]
        rw [this, ih2]

theorem dedupDots_of_many {t : List Char} (h : 1 < t.count '.') :
    dedupDots t =
      t.takeWhile (· ≠ '.') ++ '.' :: ((t.dropWhile (· ≠ '.')).tail.filter (· ≠ '.')) := by
  have hmem : '.' ∈ t := by
    have : 0 < t.count '.' := by omega
    exact List.count_pos_iff.1 this
  obtain ⟨h1, h2⟩ := dedupDots_split hmem
  unfold dedupDots
  rw [if_pos h]
  show List.take _ t ++ List.filter _ (List.drop _ t) = _
  rw [h1, h2, List.append_assoc]
  rfl

theorem dedupDots_of_few {t : List Char} (h : t.count '.' ≤ 1) : dedupDots t = t := by
  unfold dedupDots
  rw [if_neg (by omega)]

theorem count_dot_dedupDots (t : List Char) : (dedupDots t).count '.' ≤ 1 := by
  by_cases h : 1 < t.count '.'
  · rw [dedupDots_of_many h]
    have h1 : (t.takeWhile (· ≠ '.')).count '.' = 0 := by
      rw [List.count_eq_zero]
      intro hmem
      have := List.mem_takeWhile_imp hmem
      simp at this
    have h2 : ((t.dropWhile (· ≠ '.')).tail.filter (· ≠ '.')).count '.' = 0 := by
      rw [List.count_eq_zero]
      intro hmem
      have := List.of_mem_filter hmem
      simp at this
    rw [List.count_append, h1, List.count_cons_self, h2]
  · rw [dedupDots_of_few (by omega)]
    omega

theorem takeWhile_dot_split (ip fp : List Char) (h : ip.all (· ≠ '.') = true) :
    (ip ++ '.' :: fp).takeWhile (· ≠ '.') = ip ∧
      (ip ++ '.' :: fp).dropWhile (· ≠ '.') = '.' :: fp := by
  induction ip with
  | nil => simp [List.takeWhile, List.dropWhile]
  | cons c t ih =>
    simp only [List.all_cons, Bool.and_eq_true] at h
    obtain ⟨h1, h2⟩ := h
    obtain ⟨ih1, ih2⟩ := ih h2
    constructor
    · simpa [List.takeWhile, h1] using ih1
    · simpa [List.dropWhile, h1] using ih2

theorem parseUnsignedDec_dot (ip fp : List Char)
    (hnd : ip.all (· ≠ '.') = true)
    (hip : ip.all isDigitChar = true) (hfp : fp.all isDigitChar = true)
    (hne : ip ≠ [] ∨ fp ≠ []) :
    parseUnsignedDec (ip ++ '.' :: fp) =
      some ((natOfDigits ip : ℚ) + (natOfDigits fp : ℚ) / (10 : ℚ) ^ fp.length) := by
  obtain ⟨ht, hd⟩ := takeWhile_dot_split ip fp hnd
  unfold parseUnsignedDec
  rw [ht, hd]
  simp [hip, hfp, hne]

/-- C3: the numeric normalizer replaces every comma with a dot (no comma
survives normalization), and when the comma-replaced text has more than one
dot it keeps the first dot and removes all subsequent dots (so at most one
dot remains, and text with at most one dot is left unchanged); the concrete
mappings hold: "20.369.706" to 20.369706, "12,5" to 12.5, "7" to 7, and a
missing input yields the NaN sentinel. -/
theorem clean_number_spec :
    clean_number none = some .nan ∧
    clean_number (some "20.369.706") = some (.val ((20369706 : ℚ) / 1000000)) ∧
    clean_number (some "12,5") = some (.val ((125 : ℚ) / 10)) ∧
    clean_number (some "7") = some (.val 7) ∧
    (∀ cs : List Char, ',' ∉ dedupDots (replaceCommaDot cs)) ∧
    (∀ cs : List Char, (dedupDots (replaceCommaDot cs)).count '.' ≤ 1) ∧
    (∀ cs : List Char, cs.count '.' ≤ 1 → dedupDots cs = cs) ∧
    (∀ cs : List Char, 1 < cs.count '.' →
      dedupDots cs =
        cs.takeWhile (· ≠ '.') ++ '.' :: ((cs.dropWhile (· ≠ '.')).tail.filter (· ≠ '.'))) := by
  refine ⟨by decide, ?_, ?_, ?_, ?_, ?_, ?_, ?_⟩
  · show (parseFloatLit (dedupDots (replaceCommaDot (stripWs "20.369.706".data)))).map
        NumValue.val = _
    rw [show dedupDots (replaceCommaDot (stripWs "20.369.706".data)) =
        ['2', '0'] ++ '.' :: ['3', '6', '9', '7', '0', '6'] by decide]
    rw [show parseFloatLit (['2', '0'] ++ '.' :: ['3', '6', '9', '7', '0', '6']) =
        parseUnsignedDec (['2', '0'] ++ '.' :: ['3', '6', '9', '7', '0', '6']) from rfl]
    rw [parseUnsignedDec_dot _ _ (by decide) (by decide) (by decide) (by decide)]
    rw [show natOfDigits ['2', '0'] = 20 by decide,
      show natOfDigits ['3', '6', '9', '7', '0', '6'] = 369706 by decide]
    norm_num
  · show (parseFloatLit (dedupDots (replaceCommaDot (stripWs "12,5".data)))).map
        NumValue.val = _
    rw [show dedupDots (replaceCommaDot (stripWs "12,5".data)) = ['1', '2'] ++ '.' :: ['5']
      by decide]
    rw [show parseFloatLit (['1', '2'] ++ '.' :: ['5']) =
        parseUnsignedDec (['1', '2'] ++ '.' :: ['5']) from rfl]
    rw [parseUnsignedDec_dot _ _ (by decide) (by decide) (by decide) (by decide)]
    rw [show natOfDigits ['1', '2'] = 12 by decide, show natOfDigits ['5'] = 5 by decide]
    norm_num
  · show (parseFloatLit (dedupDots (replaceCommaDot (stripWs "7".data)))).map
        NumValue.val = _
    rw [show dedupDots (replaceCommaDot (stripWs "7".data)) = ['7'] by decide]
    rw [show parseFloatLit ['7'] =
        (if ['7'] ≠ [] ∧ (['7']).all isDigitChar = true then
          some ((natOfDigits ['7'] : ℚ)) else none) from rfl]
    rw [if_pos (by decide), show natOfDigits ['7'] = 7 by decide]
    norm_num
  · intro cs hmem
    have h1 : ',' ∈ replaceCommaDot cs := mem_of_mem_dedupDots hmem
    obtain ⟨a, _, ha⟩ := List.mem_map.1 h1
    by_cases hc : a = ',' <;> simp [hc] at ha
  · intro cs
    exact count_dot_dedupDots _
  · intro cs h
    exact dedupDots_of_few h
  · intro cs h
    exact dedupDots_of_many h

/-- Witness for C3 at the concrete token "1.2.3". -/
theorem clean_number_spec_witness :
    1 < ("1.2.3".data).count '.' ∧
      dedupDots ("1.2.3".data) =
        ("1.2.3".data).takeWhile (· ≠ '.') ++
          '.' :: ((("1.2.3".data).dropWhile (· ≠ '.')).tail.filter (· ≠ '.')) :=
  ⟨by decide, clean_number_spec.2.2.2.2.2.2.2 "1.2.3".data (by decide)⟩

/-! Characterization of the filename matcher. -/

/-- The shape named by the pattern: some prefix, the literal, eight digits,
an underscore, six digits, the extension, nothing after. -/
def SpotNameShape (cs d8 d6 : List Char) (pre : List Char) : Prop :=
  cs = pre ++ ("spot_position_".data ++ (d8 ++ ('_' :: (d6 ++ ".txt".data)))) ∧
    d8.length = 8 ∧ d8.all isDigitChar = true ∧ d6.length = 6 ∧ d6.all isDigitChar = true

theorem spot_tail_shape (t : List Char)
    (hlit : t.take 14 = "spot_position_".data)
    (hund : (t.drop 22).take 1 = ['_'])
    (hext : t.drop 29 = ".txt".data) :
    t = "spot_position_".data ++
      ((t.drop 14).take 8 ++ ('_' :: ((t.drop 23).take 6 ++ ".txt".data))) := by
  conv_lhs => rw [← List.take_append_drop 14 t]
  rw [hlit]
  congr 1
  conv_lhs => rw [← List.take_append_drop 8 (t.drop 14)]
  congr 1
  have e22 : (t.drop 14).drop 8 = t.drop 22 := by
    rw [List.drop_drop]
  rw [e22]
  conv_lhs => rw [← List.take_append_drop 1 (t.drop 22)]
  rw [hund]
  have e23 : (t.drop 22).drop 1 = t.drop 23 := by
    rw [List.drop_drop]
  rw [e23]
  show '_' :: t.drop 23 = '_' :: ((t.drop 23).take 6 ++ ".txt".data)
  congr 1
  conv_lhs => rw [← List.take_append_drop 6 (t.drop 23)]
  congr 1
  have e29 : (t.drop 23).drop 6 = t.drop 29 := by
    rw [List.drop_drop]
  rw [e29, hext]

theorem matchSpotName_some_iff (name : String) (d8 d6 : List Char) :
    matchSpotName name = some (d8, d6) ↔
      ∃ pre, SpotNameShape (stripTrailingNL name.data) d8 d6 pre := by
  unfold matchSpotName
  dsimp only
  set cs := stripTrailingNL name.data with hcs
  set n := cs.length with hn
  constructor
  · intro h
    split at h
    · exact absurd h (by simp)
    · rename_i hlt
      split at h
      · rename_i hcond
        obtain ⟨hlit, hd8, hund, hd6, hext⟩ := hcond
        obtain ⟨he1, he2⟩ := Prod.mk.inj (Option.some.inj h)
        have hlen33 : (cs.drop (n - 33)).length = 33 := by
          rw [List.length_drop]
          omega
        refine ⟨cs.take (n - 33), ?_, ?_, ?_, ?_, ?_⟩
        · conv_lhs => rw [← List.take_append_drop (n - 33) cs]
          rw [← he1, ← he2]
          congr 1
          exact spot_tail_shape _ hlit hund hext
        · rw [← he1, List.length_take, List.length_drop, hlen33]
          decide
        · rw [← he1]; exact hd8
        · rw [← he2, List.length_take, List.length_drop, hlen33]
          decide
        · rw [← he2]; exact hd6
      · exact absurd h (by simp)
  · rintro ⟨pre, hshape, h8, hd8, h6, hd6⟩
    have hlen : n = pre.length + 33 := by
      rw [hn, hshape]
      simp [h8, h6]
    have hpre : n - 33 = pre.length := by omega
    have htail : cs.drop (n - 33) =
        "spot_position_".data ++ (d8 ++ ('_' :: (d6 ++ ".txt".data))) := by
      rw [hpre, hshape, List.drop_left]
    rw [if_neg (by omega)]
    have ht14 : (cs.drop (n - 33)).take 14 = "spot_position_".data := by
      rw [htail]; exact List.take_left' (by decide)
    have hd14 : (cs.drop (n - 33)).drop 14 = d8 ++ ('_' :: (d6 ++ ".txt".data)) := by
      rw [htail]; exact List.drop_left' (by decide)
    have ht8 : ((cs.drop (n - 33)).drop 14).take 8 = d8 := by
      rw [hd14]; exact List.take_left' h8
    have hd22 : (cs.drop (n - 33)).drop 22 = '_' :: (d6 ++ ".txt".data) := by
      have : ((cs.drop (n - 33)).drop 14).drop 8 = (cs.drop (n - 33)).drop 22 :=
        List.drop_drop 8 14 _
      rw [← this, hd14, List.drop_left' h8]
    have ht1 : ((cs.drop (n - 33)).drop 22).take 1 = ['_'] := by rw [hd22]; rfl
    have hd23 : (cs.drop (n - 33)).drop 23 = d6 ++ ".txt".data := by
      have : ((cs.drop (n - 33)).drop 22).drop 1 = (cs.drop (n - 33)).drop 23 :=
        List.drop_drop 1 22 _
      rw [← this, hd22]
      rfl
    have ht6 : ((cs.drop (n - 33)).drop 23).take 6 = d6 := by
      rw [hd23]; exact List.take_left' h6
    have hd29 : (cs.drop (n - 33)).drop 29 = ".txt".data := by
      have : ((cs.drop (n - 33)).drop 23).drop 6 = (cs.drop (n - 33)).drop 29 :=
        List.drop_drop 6 23 _
      rw [← this, hd23, List.drop_left' h6]
    rw [if_pos ⟨ht14, ht8 ▸ hd8, ht1, ht6 ▸ hd6, hd29⟩, ht8, ht6]

/-- C6 (amended): `parse_spot_start_datetime` raises the filename-format
`ValueError` exactly when the search for
`spot_position_(\d{8})_(\d{6})\.txt$` fails, i.e. exactly when the filename
does not end with the literal, eight digits, an underscore, six digits and
the extension; when the pattern does match, parsing returns the instant
encoded by the digit groups if and only if those digits form a valid
calendar date-time, and otherwise fails with a different (strptime) error
rather than succeeding. -/
theorem parse_spot_outcomes (name : String) :
    (parse_spot_start_datetime name = .formatError ↔ matchSpotName name = none) ∧
    (matchSpotName name = none ↔
      ¬ ∃ d8 d6 pre, SpotNameShape (stripTrailingNL name.data) d8 d6 pre) ∧
    (∀ d8 d6, matchSpotName name = some (d8, d6) →
      (parse_spot_start_datetime name = .ok (dtOfDigits d8 d6) ↔
        validDateTime (dtOfDigits d8 d6) = true)) := by
  refine ⟨?_, ?_, ?_⟩
  · unfold parse_spot_start_datetime
    cases hm : matchSpotName name with
    | none => simp
    | some p =>
      obtain ⟨d8, d6⟩ := p
      constructor
      · intro h
        by_cases hv : validDateTime (dtOfDigits d8 d6) = true <;> simp [hv] at h
      · intro h
        cases h
  · constructor
    · intro hm hex
      obtain ⟨d8, d6, pre2, hshape⟩ := hex
      have := (matchSpotName_some_iff name d8 d6).mpr ⟨pre2, hshape⟩
      rw [hm] at this
      cases this
    · intro hne
      cases hm : matchSpotName name with
      | none => rfl
      | some p =>
        obtain ⟨d8, d6⟩ := p
        obtain ⟨pre2, hshape⟩ := (matchSpotName_some_iff name d8 d6).mp hm
        exact absurd ⟨d8, d6, pre2, hshape⟩ hne
  · intro d8 d6 hm
    unfold parse_spot_start_datetime
    rw [hm]
    by_cases hv : validDateTime (dtOfDigits d8 d6) = true <;> simp [hv]

/-- Witness for C6 at a well-formed filename. -/
theorem parse_spot_outcomes_witness :
    parse_spot_start_datetime "spot_position_20240101_123456.txt" =
      .ok (dtOfDigits "20240101".data "123456".data) :=
  ((parse_spot_outcomes "spot_position_20240101_123456.txt").2.2
    "20240101".data "123456".data (by decide)).mpr (by decide)

/-- Counterexample to C6 as stated: this filename matches the pattern
(eight digits, underscore, six digits), yet parsing does not succeed - the
digits 20240199 are not a valid date, so `strptime` raises (a `ValueError`
distinct from the filename-format one). -/
theorem parse_spot_invalid_date_cex :
    matchSpotName "spot_position_20240199_000000.txt" =
      some ("20240199".data, "000000".data) ∧
    parse_spot_start_datetime "spot_position_20240199_000000.txt" = .dateError := by
  constructor <;> decide

theorem padDigits_natOfDigits_of_length {ds : List Char} {k : Nat}
    (hlen : ds.length = k) (hall : ds.all isDigitChar = true) :
    padDigits k (natOfDigits ds) = ds := by
  subst hlen
  exact padDigits_natOfDigits ds (List.all_eq_true.mp hall)

/-- C7: for every filename the pattern matches and whose digits parse, the
parsed start instant round-trips - zero-padded formatting of the year,
month and day reproduces the 8-digit group, and of the hour, minute and
second the 6-digit group, exactly as embedded in the filename. -/
theorem parse_spot_roundtrip (name : String) (d8 d6 : List Char) (dt : DateTime)
    (hm : matchSpotName name = some (d8, d6))
    (hp : parse_spot_start_datetime name = .ok dt) :
    padDigits 4 dt.year ++ (padDigits 2 dt.month ++ padDigits 2 dt.day) = d8 ∧
    padDigits 2 dt.hour ++ (padDigits 2 dt.minute ++ padDigits 2 dt.second) = d6 := by
  have hdt : dt = dtOfDigits d8 d6 := by
    have hm2 := hp
    unfold parse_spot_start_datetime at hm2
    by_cases hv : validDateTime (dtOfDigits d8 d6) = true
    · rw [hm] at hm2
      dsimp only at hm2
      rw [if_pos hv] at hm2
      exact (SpotParseOutcome.ok.inj hm2).symm
    · rw [hm] at hm2
      dsimp only at hm2
      rw [if_neg hv] at hm2
      cases hm2
  obtain ⟨pre2, _, h8, hd8, h6, hd6⟩ := (matchSpotName_some_iff name d8 d6).mp hm
  have hall8 := List.all_eq_true.mp hd8
  have hall6 := List.all_eq_true.mp hd6
  subst hdt
  constructor
  · show padDigits 4 (natOfDigits (d8.take 4)) ++
      (padDigits 2 (natOfDigits ((d8.drop 4).take 2)) ++
        padDigits 2 (natOfDigits (d8.drop 6))) = d8
    have e1 : padDigits 4 (natOfDigits (d8.take 4)) = d8.take 4 :=
      padDigits_natOfDigits_of_length (by simp [List.length_take, h8])
        (List.all_eq_true.mpr fun c hc => hall8 c (List.mem_of_mem_take hc))
    have e2 : padDigits 2 (natOfDigits ((d8.drop 4).take 2)) = (d8.drop 4).take 2 :=
      padDigits_natOfDigits_of_length
        (by simp [List.length_take, List.length_drop, h8])
        (List.all_eq_true.mpr fun c hc =>
          hall8 c (List.mem_of_mem_drop (List.mem_of_mem_take hc)))
    have e3 : padDigits 2 (natOfDigits (d8.drop 6)) = d8.drop 6 :=
      padDigits_natOfDigits_of_length (by simp [List.length_drop, h8])
        (List.all_eq_true.mpr fun c hc => hall8 c (List.mem_of_mem_drop hc))
    rw [e1, e2, e3]
    have e4 : (d8.drop 4).drop 2 = d8.drop 6 := by rw [List.drop_drop]
    conv_rhs => rw [← List.take_append_drop 4 d8]
    congr 1
    conv_rhs => rw [← List.take_append_drop 2 (d8.drop 4)]
    rw [e4]
  · show padDigits 2 (natOfDigits (d6.take 2)) ++
      (padDigits 2 (natOfDigits ((d6.drop 2).take 2)) ++
        padDigits 2 (natOfDigits (d6.drop 4))) = d6
    have e1 : padDigits 2 (natOfDigits (d6.take 2)) = d6.take 2 :=
      padDigits_natOfDigits_of_length (by simp [List.length_take, h6])
        (List.all_eq_true.mpr fun c hc => hall6 c (List.mem_of_mem_take hc))
    have e2 : padDigits 2 (natOfDigits ((d6.drop 2).take 2)) = (d6.drop 2).take 2 :=
      padDigits_natOfDigits_of_length
        (by simp [List.length_take, List.length_drop, h6])
        (List.all_eq_true.mpr fun c hc =>
          hall6 c (List.mem_of_mem_drop (List.mem_of_mem_take hc)))
    have e3 : padDigits 2 (natOfDigits (d6.drop 4)) = d6.drop 4 :=
      padDigits_natOfDigits_of_length (by simp [List.length_drop, h6])
        (List.all_eq_true.mpr fun c hc => hall6 c (List.mem_of_mem_drop hc))
    rw [e1, e2, e3]
    have e4 : (d6.drop 2).drop 2 = d6.drop 4 := by rw [List.drop_drop]
    conv_rhs => rw [← List.take_append_drop 2 d6]
    congr 1
    conv_rhs => rw [← List.take_append_drop 2 (d6.drop 2)]
    rw [e4]

/-- Witness for C7 at a concrete well-formed filename. -/
theorem parse_spot_roundtrip_witness :
    padDigits 4 (dtOfDigits "20240101".data "123456".data).year ++
      (padDigits 2 (dtOfDigits "20240101".data "123456".data).month ++
        padDigits 2 (dtOfDigits "20240101".data "123456".data).day) = "20240101".data ∧
    padDigits 2 (dtOfDigits "20240101".data "123456".data).hour ++
      (padDigits 2 (dtOfDigits "20240101".data "123456".data).minute ++
        padDigits 2 (dtOfDigits "20240101".data "123456".data).second) = "123456".data :=
  parse_spot_roundtrip "spot_position_20240101_123456.txt" "20240101".data "123456".data
    (dtOfDigits "20240101".data "123456".data) (by decide) (by decide)

/-! Spot loader theorems. -/

theorem mapMOpt_some_forall₂ {α β : Type} {f : α → Option β} :
    ∀ {l : List α} {l2 : List β}, mapMOpt f l = some l2 →
      List.Forall₂ (fun a b => f a = some b) l l2 := by
  intro l
  induction l with
  | nil =>
    intro l2 h
    unfold mapMOpt at h
    obtain rfl := Option.some.inj h
    exact List.Forall₂.nil
  | cons a t ih =>
    intro l2 h
    unfold mapMOpt at h
    cases hfa : f a with
    | none => rw [hfa] at h; cases h
    | some b =>
      rw [hfa] at h
      cases hmt : mapMOpt f t with
      | none => rw [hmt] at h; cases h
      | some t2 =>
        rw [hmt] at h
        obtain rfl := Option.some.inj h
        exact List.Forall₂.cons hfa (ih hmt)

theorem eq_some_getD {α : Type} {o : Option α} (d : α) (h : o.isSome = true) :
    o = some (o.getD d) := by
  cases o with
  | none => cases h
  | some a => rfl

theorem cleanSpotRow_frame_index {r : RawSpotRow} {c : CleanSpotRow}
    (h : cleanSpotRow r = some c) : c.frame_index = r.frame_index := by
  unfold cleanSpotRow at h
  split at h
  · obtain rfl := Option.some.inj h
    rfl
  · cases h

/-- C4 (amended): whenever the loader accepts a spot file, the output is
nonempty and every row's r_squared_shift_mm2 equals the NaN-propagating
squared Euclidean distance of its center from the first row's center; the
first row's value is exactly 0 whenever its center coordinates are actual
numbers (if a first-row coordinate is NaN, the value is NaN, not 0). -/
theorem load_spot_r2 (name : String) (rows : List RawSpotRow) (frames : List SpotFrame)
    (h : load_spot_positions name rows = some frames) :
    ∃ f0 rest, frames = f0 :: rest ∧
      (∀ f ∈ frames, f.r_squared_shift_mm2 =
        rsqShift f.center_x_mm f.center_y_mm f0.center_x_mm f0.center_y_mm) ∧
      (∀ qx qy, f0.center_x_mm = some qx → f0.center_y_mm = some qy →
        f0.r_squared_shift_mm2 = some 0) := by
  unfold load_spot_positions at h
  cases hp : parse_spot_start_datetime name <;> rw [hp] at h
  case formatError => cases h
  case dateError => cases h
  case ok dt =>
  cases hm : mapMOpt cleanSpotRow rows <;> rw [hm] at h
  case none => cases h
  case some cleaned =>
  cases cleaned with
  | nil => cases h
  | cons first rest0 =>
    obtain rfl := Option.some.inj h
    refine ⟨mkSpotFrame dt first first, rest0.map (mkSpotFrame dt first), rfl, ?_, ?_⟩
    · intro f hf
      obtain ⟨r, _, rfl⟩ := List.mem_map.1 hf
      rfl
    · intro qx qy hx hy
      have hx2 : first.x = some qx := hx
      have hy2 : first.y = some qy := hy
      show rsqShift first.x first.y first.x first.y = some 0
      rw [hx2, hy2]
      show some ((qx - qx) ^ 2 + (qy - qy) ^ 2) = some 0
      norm_num

/-- Witness for C4 at a file whose cells all parse. -/
theorem load_spot_r2_witness :
    ∃ f0 rest,
      (load_spot_positions "spot_position_20240101_000000.txt"
          [⟨0, some "1", some "2", some "3", some "4", some "5"⟩]).getD [] = f0 :: rest ∧
      (∀ f ∈ (load_spot_positions "spot_position_20240101_000000.txt"
          [⟨0, some "1", some "2", some "3", some "4", some "5"⟩]).getD [],
        f.r_squared_shift_mm2 =
          rsqShift f.center_x_mm f.center_y_mm f0.center_x_mm f0.center_y_mm) ∧
      (∀ qx qy, f0.center_x_mm = some qx → f0.center_y_mm = some qy →
        f0.r_squared_shift_mm2 = some 0) :=
  load_spot_r2 "spot_position_20240101_000000.txt"
    [⟨0, some "1", some "2", some "3", some "4", some "5"⟩] _
    (eq_some_getD [] (by decide))

/-- Counterexample to C4 as stated: a spot file whose first-row center_x cell
is a pandas NA is accepted by the loader, but the first row's
r_squared_shift_mm2 is NaN (here `none`), not exactly 0.0. -/
theorem load_spot_r2_nan_cex :
    (load_spot_positions "spot_position_20240101_000000.txt"
        [⟨0, none, some "1", some "1", some "1", some "1"⟩]).map
      (fun l => l.map (·.r_squared_shift_mm2)) = some [none] := by
  decide

/-- C5: every accepted spot file yields, row by row, a record whose
frame_index is the row's frame_index and whose timestamp is exactly the
filename-parsed start instant plus frame_index whole minutes, including for
frame_index values that do not start at 0 or are non-consecutive. -/
theorem load_spot_timestamps (name : String) (rows : List RawSpotRow)
    (frames : List SpotFrame) (dt : DateTime)
    (hp : parse_spot_start_datetime name = .ok dt)
    (h : load_spot_positions name rows = some frames) :
    List.Forall₂ (fun (r : RawSpotRow) (f : SpotFrame) =>
      f.frame_index = r.frame_index ∧
        f.timestamp = dtToAbsSeconds dt + 60 * r.frame_index) rows frames := by
  unfold load_spot_positions at h
  rw [hp] at h
  cases hm : mapMOpt cleanSpotRow rows <;> rw [hm] at h
  case none => cases h
  case some cleaned =>
  cases cleaned with
  | nil => cases h
  | cons first rest0 =>
    obtain rfl := Option.some.inj h
    have hff := mapMOpt_some_forall₂ hm
    rw [List.forall₂_map_right_iff]
    refine hff.imp ?_
    intro r c hc
    have hfi : c.frame_index = r.frame_index := cleanSpotRow_frame_index hc
    exact ⟨hfi, by rw [show (mkSpotFrame dt first c).timestamp =
      dtToAbsSeconds dt + 60 * c.frame_index from rfl, hfi]⟩

/-- Witness for C5 at a file whose single row has frame_index 5. -/
theorem load_spot_timestamps_witness :
    List.Forall₂ (fun (r : RawSpotRow) (f : SpotFrame) =>
      f.frame_index = r.frame_index ∧
        f.timestamp = dtToAbsSeconds ⟨2024, 1, 1, 0, 0, 0⟩ + 60 * r.frame_index)
      [⟨5, some "1", some "2", some "3", some "4", some "5"⟩]
      ((load_spot_positions "spot_position_20240101_000000.txt"
          [⟨5, some "1", some "2", some "3", some "4", some "5"⟩]).getD []) :=
  load_spot_timestamps "spot_position_20240101_000000.txt"
    [⟨5, some "1", some "2", some "3", some "4", some "5"⟩] _ ⟨2024, 1, 1, 0, 0, 0⟩
    (by decide) (eq_some_getD [] (by decide))

/-! Column-inference theorems. -/

theorem find?_eq_head?_filter {α : Type} (p : α → Bool) (l : List α) :
    l.find? p = (l.filter p).head? := by
  induction l with
  | nil => rfl
  | cons a t ih =>
    rw [List.find?_cons, List.filter_cons]
    cases h : p a with
    | true => simp
    | false => simpa using ih

theorem contains_mem_eq {α : Type} [DecidableEq α] {l : List α} {a : α} (h : a ∈ l) :
    l.contains a = true := List.elem_iff.mpr h

theorem contains_not_mem_eq {α : Type} [DecidableEq α] {l : List α} {a : α} (h : a ∉ l) :
    l.contains a = false := by
  cases hc : l.contains a with
  | false => rfl
  | true => exact absurd (List.elem_iff.mp hc) h

/-- Exclusion used by the value-column search, as the amended claim words
it: when any time/date-like column exists, every time/date-like column is
excluded; otherwise only the fallback first column is. -/
def isExcludedVal (cols : List TempCol) (n : String) : Bool :=
  match (cols.map (·.name)).find? isTimeLikeName with
  | some _ => isTimeLikeName n
  | none => (cols.map (·.name)).head? == some n

/-- Column inference as described by the amended claim, with first-match
selection expressed through `List.find?`: the timestamp column is the first
time/date-like column, else the first column; the temperature column is the
first non-excluded temp-like column, else the first non-excluded
numeric-typed column; failure when none exists. -/
def identifyColumnsSpec (cols : List TempCol) : Option (String × String) :=
  let names := cols.map (·.name)
  let ts? : Option String :=
    match names.find? isTimeLikeName with
    | some t => some t
    | none => names.head?
  match ts? with
  | none => none
  | some t =>
    match names.find? (fun n => !isExcludedVal cols n && isTempLikeName n) with
    | some v => some (t, v)
    | none =>
      match cols.find? (fun c => !isExcludedVal cols c.name && c.numeric) with
      | some c => some (t, c.name)
      | none => none

theorem contains_filter_eq {names : List String} {n : String} (p : String → Bool)
    (hn : n ∈ names) : (names.filter p).contains n = p n := by
  cases h : p n with
  | true => exact contains_mem_eq (List.mem_filter.2 ⟨hn, h⟩)
  | false =>
    apply contains_not_mem_eq
    intro hmem
    rw [(List.mem_filter.1 hmem).2] at h
    cases h

theorem identify_eq_spec_aux (cols : List TempCol) :
    identify_temperature_columns cols = identifyColumnsSpec cols := by
  unfold identify_temperature_columns identifyColumnsSpec isExcludedVal
  dsimp only
  simp only [find?_eq_head?_filter]
  cases hfil : (cols.map (·.name)).filter isTimeLikeName with
  | cons t0 ts =>
    simp only [hfil, List.isEmpty_cons, List.head?_cons, Bool.false_eq_true, if_false]
    have hcont : ∀ n ∈ cols.map (·.name), (t0 :: ts).contains n = isTimeLikeName n := by
      intro n hn
      rw [← hfil]
      exact contains_filter_eq isTimeLikeName hn
    have hvf : (cols.map (·.name)).filter (fun n => !(t0 :: ts).contains n && isTempLikeName n) =
        (cols.map (·.name)).filter (fun n => !isTimeLikeName n && isTempLikeName n) :=
      List.filter_congr (fun n hn => by rw [hcont n hn])
    have hvf2 : cols.filter (fun c => !(t0 :: ts).contains c.name && c.numeric) =
        cols.filter (fun c => !isTimeLikeName c.name && c.numeric) :=
      List.filter_congr (fun c hc => by rw [hcont c.name (List.mem_map.2 ⟨c, hc, rfl⟩)])
    rw [hvf, hvf2]
    cases hv1 : (cols.map (·.name)).filter (fun n => !isTimeLikeName n && isTempLikeName n) with
    | cons v0 vs => rfl
    | nil =>
      simp only [List.isEmpty_nil, List.head?_nil, if_true]
      cases hv2 : cols.filter (fun c => !isTimeLikeName c.name && c.numeric) with
      | nil => rfl
      | cons c0 cs => rfl
  | nil =>
    simp only [hfil, List.isEmpty_nil, List.head?_nil, if_true]
    cases hcols : cols with
    | nil => rfl
    | cons c0 cs =>
      subst hcols
      simp only [List.map_cons, List.head?_cons, List.take_succ_cons, List.take_zero]
      have hcont : ∀ n, ([c0.name] : List String).contains n =
          ((some c0.name : Option String) == some n) := by
        intro n
        by_cases h : n = c0.name
        · subst h; simp
        · simp [h, Ne.symm h]
      have hvf : (c0.name :: cs.map (·.name)).filter
            (fun n => !([c0.name] : List String).contains n && isTempLikeName n) =
          (c0.name :: cs.map (·.name)).filter
            (fun n => !((some c0.name : Option String) == some n) && isTempLikeName n) :=
        List.filter_congr (fun n _ => by rw [hcont n])
      have hvf2 : (c0 :: cs).filter
            (fun c => !([c0.name] : List String).contains c.name && c.numeric) =
          (c0 :: cs).filter
            (fun c => !((some c0.name : Option String) == some c.name) && c.numeric) :=
        List.filter_congr (fun c _ => by rw [hcont c.name])
      rw [hvf, hvf2]
      cases hv1 : (c0.name :: cs.map (·.name)).filter
          (fun n => !((some c0.name : Option String) == some n) && isTempLikeName n) with
      | cons v0 vs => rfl
      | nil =>
        simp only [List.isEmpty_nil, List.head?_nil, if_true]
        cases hv2 : (c0 :: cs).filter
            (fun c => !((some c0.name : Option String) == some c.name) && c.numeric) with
        | nil => rfl
        | cons d0 ds => rfl

/-- C8 (amended): the implemented column inference agrees, on every column
list, with first-match selection as amended - timestamp is the first
time/date-like column, else the first column; temperature is the first
temp-like column among columns other than every timestamp candidate (all
time/date-like columns, or just the fallback first column when there are
none), else the first remaining numeric-typed column; it fails when no such
column exists.  The concrete examples hold: (Time, TempC) selects Time and
TempC, and (ts, value1, value2) falls back to ts and the first numeric
non-timestamp column value1. -/
theorem identify_temperature_columns_spec :
    (∀ cols : List TempCol, identify_temperature_columns cols = identifyColumnsSpec cols) ∧
    identify_temperature_columns [⟨"Time", false⟩, ⟨"TempC", true⟩] = some ("Time", "TempC") ∧
    identify_temperature_columns [⟨"ts", false⟩, ⟨"value1", true⟩, ⟨"value2", true⟩] =
      some ("ts", "value1") :=
  ⟨identify_eq_spec_aux, by decide, by decide⟩

/-- Witness for C8 at a one-column table. -/
theorem identify_temperature_columns_spec_witness :
    identify_temperature_columns [⟨"reading", true⟩] = identifyColumnsSpec [⟨"reading", true⟩] :=
  identify_temperature_columns_spec.1 [⟨"reading", true⟩]

/-- Counterexample to C8 as stated: with columns (Time, TempDate) the claim
selects Time as timestamp and TempDate as temperature (TempDate contains
"temp" and differs from the timestamp column Time), but the code excludes
every timestamp candidate - TempDate contains "date" and is a candidate -
so no value column remains and inference fails with ColumnInferenceError. -/
theorem identify_temperature_columns_cex :
    identify_temperature_columns [⟨"Time", false⟩, ⟨"TempDate", true⟩] = none := by
  decide

/-! Temperature loader theorems. -/

theorem mapMOpt_eq_none_iff {α β : Type} {f : α → Option β} :
    ∀ {l : List α}, mapMOpt f l = none ↔ ∃ a ∈ l, f a = none := by
  intro l
  induction l with
  | nil =>
    constructor
    · intro h; cases h
    · rintro ⟨a, ha, _⟩; cases ha
  | cons a t ih =>
    constructor
    · intro h
      unfold mapMOpt at h
      cases hfa : f a with
      | none => exact ⟨a, List.mem_cons_self a t, hfa⟩
      | some b =>
        rw [hfa] at h
        cases hmt : mapMOpt f t with
        | none => obtain ⟨x, hx, hfx⟩ := ih.mp hmt; exact ⟨x, List.mem_cons_of_mem a hx, hfx⟩
        | some t2 => rw [hmt] at h; cases h
    · rintro ⟨x, hx, hfx⟩
      unfold mapMOpt
      rcases List.mem_cons.1 hx with rfl | hx2
      · rw [hfx]
      · rw [ih.mpr ⟨x, hx2, hfx⟩]
        cases f a <;> rfl

instance : IsTotal TempRow (fun a b => tempRowKey a ≤ tempRowKey b) :=
  ⟨fun a b => Int.le_total (tempRowKey a) (tempRowKey b)⟩

instance : IsTrans TempRow (fun a b => tempRowKey a ≤ tempRowKey b) :=
  ⟨fun _ _ _ h1 h2 => le_trans h1 h2⟩

/-- C2 (amended): the temperature loader aborts exactly when column
inference fails or some row has a present-but-unparseable timestamp cell;
a row whose temperature cell fails to parse is coerced to NaN and silently
dropped (it never aborts the run), and a missing timestamp cell becomes NaT
and is likewise dropped - but an unparseable non-missing timestamp cell
raises, because `pd.to_datetime` is called without `errors="coerce"`. -/
theorem load_temperature_abort_iff (t : TempTable) :
    load_temperature_data t = none ↔
      identify_temperature_columns t.cols = none ∨
      ∃ tn vn, identify_temperature_columns t.cols = some (tn, vn) ∧
        ∃ row ∈ t.rows, ∃ s, getCell row (colIndex t.cols tn) = some s ∧
          parseTimestampISO s = none := by
  unfold load_temperature_data
  cases hid : identify_temperature_columns t.cols with
  | none =>
    constructor
    · intro _; exact Or.inl rfl
    · intro _; rfl
  | some p =>
    obtain ⟨tn, vn⟩ := p
    dsimp only
    constructor
    · intro h
      cases hm : mapMOpt
          (fun row => toDatetimeCell (getCell row (colIndex t.cols tn))) t.rows with
      | some tsVals => rw [hm] at h; cases h
      | none =>
        obtain ⟨row, hrow, hbad⟩ := mapMOpt_eq_none_iff.mp hm
        cases hcell : getCell row (colIndex t.cols tn) with
        | none => rw [hcell] at hbad; cases hbad
        | some s =>
          rw [hcell] at hbad
          have hbad2 : Option.map some (parseTimestampISO s) = none := hbad
          have hparse : parseTimestampISO s = none := by
            cases hps : parseTimestampISO s with
            | none => rfl
            | some v =>
              rw [hps] at hbad2
              cases hbad2
          exact Or.inr ⟨tn, vn, rfl, row, hrow, s, hcell, hparse⟩
    · rintro (h | ⟨tn2, vn2, hid2, row, hrow, s, hcell, hparse⟩)
      · cases h
      · obtain ⟨rfl, rfl⟩ := Prod.mk.inj (Option.some.inj hid2)
        have hbad : toDatetimeCell (getCell row (colIndex t.cols tn)) = none := by
          rw [hcell]
          show Option.map some (parseTimestampISO s) = none
          rw [hparse]
          rfl
        rw [mapMOpt_eq_none_iff.mpr ⟨row, hrow, hbad⟩]

/-- Witness for C2: a table whose single row has an unparseable timestamp
cell makes the loader abort, through the amended characterization. -/
theorem load_temperature_abort_iff_witness :
    load_temperature_data
      ⟨[⟨"time", false⟩, ⟨"temp", false⟩], [[some "garbage", some "20"]]⟩ = none :=
  (load_temperature_abort_iff
      ⟨[⟨"time", false⟩, ⟨"temp", false⟩], [[some "garbage", some "20"]]⟩).mpr
    (Or.inr ⟨"time", "temp", by decide, [some "garbage", some "20"], by decide,
      "garbage", by decide, by decide⟩)

/-- Counterexample to C2 as stated: the row with timestamp cell "garbage"
is not silently dropped - `pd.to_datetime` raises and the whole load
aborts, even though the temperature cell is fine. -/
theorem load_temperature_ts_abort_cex :
    load_temperature_data
      ⟨[⟨"Time", false⟩, ⟨"TempC", true⟩],
        [[some "2024-01-01 10:00:00", some "21.5"], [some "garbage", some "20"]]⟩ =
      none := by
  decide

/-- C9: every successful temperature load is sorted non-decreasing by
timestamp, and every returned row has a parsed (non-NaT) timestamp and a
non-NaN temperature. -/
theorem load_temperature_sorted_clean (t : TempTable) (l : List TempRow)
    (h : load_temperature_data t = some l) :
    List.Sorted (fun a b => tempRowKey a ≤ tempRowKey b) l ∧
      ∀ p ∈ l, p.1.isSome = true ∧ p.2.isSome = true := by
  unfold load_temperature_data at h
  cases hid : identify_temperature_columns t.cols with
  | none => rw [hid] at h; cases h
  | some p =>
    obtain ⟨tn, vn⟩ := p
    rw [hid] at h
    dsimp only at h
    cases hm : mapMOpt
        (fun row => toDatetimeCell (getCell row (colIndex t.cols tn))) t.rows with
    | none => rw [hm] at h; cases h
    | some tsVals =>
      rw [hm] at h
      obtain rfl := Option.some.inj h
      constructor
      · exact List.sorted_insertionSort _ _
      · intro q hq
        have hq2 : q ∈ (tsVals.zip (t.rows.map
            (fun row => toNumericCell (getCell row (colIndex t.cols vn))))).filter
            (fun p => p.1.isSome && p.2.isSome) :=
          (List.perm_insertionSort _ _).mem_iff.mp hq
        have := (List.mem_filter.1 hq2).2
        simp only [Bool.and_eq_true] at this
        exact this

/-- Witness for C9 at a concrete table with one dropped row. -/
theorem load_temperature_sorted_clean_witness :
    List.Sorted (fun a b => tempRowKey a ≤ tempRowKey b)
      ((load_temperature_data
        ⟨[⟨"Time", false⟩, ⟨"TempC", true⟩],
          [[some "2024-01-01 10:00:00", some "21.5"],
           [some "2024-01-01 09:00:00", some "zzz"],
           [some "2024-01-01 08:00:00", some "19"]]⟩).getD []) ∧
    ∀ p ∈ (load_temperature_data
        ⟨[⟨"Time", false⟩, ⟨"TempC", true⟩],
          [[some "2024-01-01 10:00:00", some "21.5"],
           [some "2024-01-01 09:00:00", some "zzz"],
           [some "2024-01-01 08:00:00", some "19"]]⟩).getD [],
      p.1.isSome = true ∧ p.2.isSome = true :=
  load_temperature_sorted_clean _ _ (eq_some_getD [] (by decide))

/-! Aligner theorems. -/

theorem map_fst_pair {α β : Type} (g : α → β) (l : List α) :
    (l.map (fun s => (s, g s))).map Prod.fst = l := by
  induction l with
  | nil => rfl
  | cons a t ih => simp [ih]

theorem sorted_ts_getLast_ge {L : List TemperatureReading}
    (hs : List.Sorted (fun a b => a.ts ≤ b.ts) L) {x b : TemperatureReading}
    (hx : x ∈ L) (hb : L.getLast? = some b) : x.ts ≤ b.ts := by
  induction L with
  | nil => cases hx
  | cons a t ih =>
    cases t with
    | nil =>
      obtain rfl := List.mem_singleton.1 hx
      obtain rfl := Option.some.inj hb
      exact le_refl _
    | cons c t2 =>
      rw [List.getLast?_cons_cons] at hb
      rcases List.mem_cons.1 hx with rfl | hx2
      · exact List.rel_of_sorted_cons hs b (List.mem_of_mem_getLast? hb)
      · exact ih hs.of_cons hx2 hb

theorem sorted_ts_head_le {L : List TemperatureReading}
    (hs : List.Sorted (fun a b => a.ts ≤ b.ts) L) {x f : TemperatureReading}
    (hx : x ∈ L) (hf : L.head? = some f) : f.ts ≤ x.ts := by
  cases L with
  | nil => cases hx
  | cons a t =>
    obtain rfl := Option.some.inj hf
    rcases List.mem_cons.1 hx with rfl | hx2
    · exact le_refl _
    · exact List.rel_of_sorted_cons hs x hx2

theorem asofBack_spec {t : Int} {L : List TemperatureReading}
    (hs : List.Sorted (fun a b => a.ts ≤ b.ts) L) {r : TemperatureReading}
    (hr : r ∈ L) (hle : r.ts ≤ t) :
    ∃ b, asofBack t L = some b ∧ r.ts ≤ b.ts ∧ b.ts ≤ t := by
  have hrf : r ∈ L.filter (fun x => decide (x.ts ≤ t)) :=
    List.mem_filter.2 ⟨hr, by simpa using hle⟩
  cases hgl : (L.filter (fun x => decide (x.ts ≤ t))).getLast? with
  | none =>
    rw [List.getLast?_eq_none_iff.mp hgl] at hrf
    cases hrf
  | some b =>
    have hbf := List.mem_of_mem_getLast? hgl
    have hbt : b.ts ≤ t := by simpa using (List.mem_filter.1 hbf).2
    have hsf : List.Sorted (fun a b => a.ts ≤ b.ts)
        (L.filter (fun x => decide (x.ts ≤ t))) := hs.sublist (List.filter_sublist L)
    exact ⟨b, hgl, sorted_ts_getLast_ge hsf hrf hgl, hbt⟩

theorem asofFwd_spec {t : Int} {L : List TemperatureReading}
    (hs : List.Sorted (fun a b => a.ts ≤ b.ts) L) {r : TemperatureReading}
    (hr : r ∈ L) (hge : t ≤ r.ts) :
    ∃ f, asofFwd t L = some f ∧ f.ts ≤ r.ts ∧ t ≤ f.ts := by
  have hrf : r ∈ L.filter (fun x => decide (t ≤ x.ts)) :=
    List.mem_filter.2 ⟨hr, by simpa using hge⟩
  cases hh : (L.filter (fun x => decide (t ≤ x.ts))).head? with
  | none =>
    rw [List.head?_eq_none_iff.mp hh] at hrf
    cases hrf
  | some f =>
    have hff := List.mem_of_mem_head? hh
    have hft : t ≤ f.ts := by simpa using (List.mem_filter.1 hff).2
    have hsf : List.Sorted (fun a b => a.ts ≤ b.ts)
        (L.filter (fun x => decide (t ≤ x.ts))) := hs.sublist (List.filter_sublist L)
    exact ⟨f, hh, sorted_ts_head_le hsf hrf hh, hft⟩

theorem asofFwd_some_ge {t : Int} {L : List TemperatureReading} {f : TemperatureReading}
    (hf : asofFwd t L = some f) : t ≤ f.ts := by
  have hff := List.mem_of_mem_head? hf
  simpa using (List.mem_filter.1 hff).2

theorem asofBack_some_le {t : Int} {L : List TemperatureReading} {b : TemperatureReading}
    (hb : asofBack t L = some b) : b.ts ≤ t := by
  have hbf := List.mem_of_mem_getLast? hb
  simpa using (List.mem_filter.1 hbf).2

/-- On a sorted reading list, the nearest-direction asof selection minimizes
the absolute timestamp distance over all members. -/
theorem asofNearest_min {t : Int} {L : List TemperatureReading}
    (hs : List.Sorted (fun a b => a.ts ≤ b.ts) L) {r : TemperatureReading} (hr : r ∈ L) :
    ∃ c, asofNearest t L = some c ∧
      (c.ts - t).natAbs ≤ (r.ts - t).natAbs := by
  rcases le_total r.ts t with hle | hge
  · obtain ⟨b, hb, hrb, hbt⟩ := asofBack_spec hs hr hle
    unfold asofNearest
    rw [hb]
    cases hfw : asofFwd t L with
    | none => exact ⟨b, rfl, by omega⟩
    | some f =>
      have hft := asofFwd_some_ge hfw
      dsimp only
      by_cases hc : t - b.ts ≤ f.ts - t
      · rw [if_pos hc]; exact ⟨b, rfl, by omega⟩
      · rw [if_neg hc]; exact ⟨f, rfl, by omega⟩
  · obtain ⟨f, hf, hfr, hft⟩ := asofFwd_spec hs hr hge
    unfold asofNearest
    rw [hf]
    cases hbk : asofBack t L with
    | none => exact ⟨f, rfl, by omega⟩
    | some b =>
      have hbt := asofBack_some_le hbk
      dsimp only
      by_cases hc : t - b.ts ≤ f.ts - t
      · rw [if_pos hc]; exact ⟨b, rfl, by omega⟩
      · rw [if_neg hc]; exact ⟨f, rfl, by omega⟩

instance : IsTotal TemperatureReading (fun a b => a.ts ≤ b.ts) :=
  ⟨fun a b => Int.le_total a.ts b.ts⟩

instance : IsTrans TemperatureReading (fun a b => a.ts ≤ b.ts) :=
  ⟨fun _ _ _ h1 h2 => le_trans h1 h2⟩

instance : IsTotal SpotFrame (fun a b => a.timestamp ≤ b.timestamp) :=
  ⟨fun a b => Int.le_total a.timestamp b.timestamp⟩

instance : IsTrans SpotFrame (fun a b => a.timestamp ≤ b.timestamp) :=
  ⟨fun _ _ _ h1 h2 => le_trans h1 h2⟩

/-- C1: the alignment produces exactly one sample per spot frame - the
output has the same length as the spot input and its first components are a
permutation of the spot frames (each spot frame appears exactly once, no
maximum-gap cutoff, an empty reading list being the only case with no
attached reading) - and no reading in the input is strictly closer in
absolute time to a sample's spot timestamp than the attached one. -/
theorem merge_asof_complete_nearest (spot : List SpotFrame)
    (temps : List TemperatureReading) :
    (merge_asof_nearest spot temps).length = spot.length ∧
    List.Perm ((merge_asof_nearest spot temps).map Prod.fst) spot ∧
    ∀ p ∈ merge_asof_nearest spot temps,
      (p.2 = none → temps = []) ∧
      ∀ c, p.2 = some c → ∀ r ∈ temps,
        (c.ts - p.1.timestamp).natAbs ≤ (r.ts - p.1.timestamp).natAbs := by
  have hmap : (merge_asof_nearest spot temps).map Prod.fst = sortSpot spot := by
    unfold merge_asof_nearest
    exact map_fst_pair _ _
  refine ⟨?_, ?_, ?_⟩
  · unfold merge_asof_nearest
    rw [List.length_map]
    exact (List.perm_insertionSort _ _).length_eq
  · rw [hmap]
    exact List.perm_insertionSort _ _
  · intro p hp
    obtain ⟨s, _, rfl⟩ := List.mem_map.1 hp
    have hsorted : List.Sorted (fun a b => a.ts ≤ b.ts) (sortTemps temps) :=
      List.sorted_insertionSort _ _
    constructor
    · intro hnone
      have hnone2 : asofNearest s.timestamp (sortTemps temps) = none := hnone
      by_contra hne
      obtain ⟨x, hx⟩ := List.exists_mem_of_ne_nil temps hne
      have hx2 : x ∈ sortTemps temps := (List.perm_insertionSort _ _).mem_iff.mpr hx
      obtain ⟨c, hc, _⟩ := asofNearest_min (t := s.timestamp) hsorted hx2
      rw [hnone2] at hc
      cases hc
    · intro c hc r hr
      have hc3 : asofNearest s.timestamp (sortTemps temps) = some c := hc
      have hr2 : r ∈ sortTemps temps := (List.perm_insertionSort _ _).mem_iff.mpr hr
      obtain ⟨c2, hc2, hbound⟩ := asofNearest_min (t := s.timestamp) hsorted hr2
      rw [hc3] at hc2
      obtain rfl := Option.some.inj hc2
      exact hbound

/-- Sample spot frame used by the concrete witnesses. -/
def sampleFrame (ts : Int) : SpotFrame :=
  ⟨0, some 1, some 1, some 1, some 1, some 1, ts, some 0⟩

/-- Witness for C1: one frame at timestamp 10 with readings at 0, 12 and
100; the attached reading (at 12) is no farther than the reading at 100. -/
theorem merge_asof_complete_nearest_witness :
    ((⟨12, 2⟩ : TemperatureReading).ts - (sampleFrame 10).timestamp).natAbs ≤
      ((⟨100, 3⟩ : TemperatureReading).ts - (sampleFrame 10).timestamp).natAbs := by
  have h := (merge_asof_complete_nearest [sampleFrame 10] [⟨0, 1⟩, ⟨12, 2⟩, ⟨100, 3⟩]).2.2
  have hp : (sampleFrame 10, some (⟨12, 2⟩ : TemperatureReading)) ∈
      merge_asof_nearest [sampleFrame 10] [⟨0, 1⟩, ⟨12, 2⟩, ⟨100, 3⟩] := by
    rw [show merge_asof_nearest [sampleFrame 10] [⟨0, 1⟩, ⟨12, 2⟩, ⟨100, 3⟩] =
        [(sampleFrame 10, some (⟨12, 2⟩ : TemperatureReading))] from rfl]
    exact List.mem_singleton.mpr rfl
  exact (h _ hp).2 ⟨12, 2⟩ rfl ⟨100, 3⟩
    (List.mem_cons_of_mem _ (List.mem_cons_of_mem _ (List.mem_cons_self _ _)))

/-- Counterexample to C10 as stated: two readings share timestamp 0 with
different temperatures; permuting the reading list changes which duplicate
the asof backward scan attaches, so the aligned output differs. -/
theorem merge_asof_perm_cex :
    List.Perm ([⟨0, 1⟩, ⟨0, 2⟩] : List TemperatureReading) [⟨0, 2⟩, ⟨0, 1⟩] ∧
    merge_asof_nearest [sampleFrame 0] [⟨0, 1⟩, ⟨0, 2⟩] ≠
      merge_asof_nearest [sampleFrame 0] [⟨0, 2⟩, ⟨0, 1⟩] := by
  constructor
  · exact List.Perm.swap _ _ _
  · intro heq
    have h1 : (merge_asof_nearest [sampleFrame 0] [⟨0, 1⟩, ⟨0, 2⟩]).map
        (fun p => p.2.map (·.temperature_C)) = [some (2 : ℚ)] := rfl
    have h2 : (merge_asof_nearest [sampleFrame 0] [⟨0, 2⟩, ⟨0, 1⟩]).map
        (fun p => p.2.map (·.temperature_C)) = [some (1 : ℚ)] := rfl
    rw [heq, h2] at h1
    simp at h1

instance instIsTotalKeyLe {α : Type} (key : α → Int) :
    IsTotal α (fun a b => key a ≤ key b) := ⟨fun a b => Int.le_total (key a) (key b)⟩

instance instIsTransKeyLe {α : Type} (key : α → Int) :
    IsTrans α (fun a b => key a ≤ key b) := ⟨fun _ _ _ h1 h2 => le_trans h1 h2⟩

instance instIsAntisymmKeyLt {α : Type} (key : α → Int) :
    IsAntisymm α (fun a b => key a < key b) :=
  ⟨fun _ _ h1 h2 => absurd (lt_trans h1 h2) (lt_irrefl _)⟩

theorem sorted_key_strict {α : Type} (key : α → Int) {L : List α}
    (hs : List.Sorted (fun a b => key a ≤ key b) L) (hn : (L.map key).Nodup) :
    List.Sorted (fun a b => key a < key b) L := by
  have hne : L.Pairwise (fun a b => key a ≠ key b) := List.pairwise_map.mp hn
  exact (hs.and hne).imp (fun h => lt_of_le_of_ne h.1 h.2)

/-- Sorting by key is insensitive to the input order when the keys are
pairwise distinct. -/
theorem insertionSort_key_eq_of_perm {α : Type} (key : α → Int) {l l' : List α}
    (hp : List.Perm l' l) (hn : (l.map key).Nodup) :
    l'.insertionSort (fun a b => key a ≤ key b) =
      l.insertionSort (fun a b => key a ≤ key b) := by
  have hs1 : List.Sorted (fun a b => key a ≤ key b)
      (l'.insertionSort (fun a b => key a ≤ key b)) := List.sorted_insertionSort _ _
  have hs2 : List.Sorted (fun a b => key a ≤ key b)
      (l.insertionSort (fun a b => key a ≤ key b)) := List.sorted_insertionSort _ _
  have hperm : List.Perm (l'.insertionSort (fun a b => key a ≤ key b))
      (l.insertionSort (fun a b => key a ≤ key b)) :=
    (List.perm_insertionSort _ _).trans (hp.trans (List.perm_insertionSort _ _).symm)
  have hn2 : ((l.insertionSort (fun a b => key a ≤ key b)).map key).Nodup :=
    ((List.perm_insertionSort _ l).map key).nodup_iff.mpr hn
  have hn1 : ((l'.insertionSort (fun a b => key a ≤ key b)).map key).Nodup :=
    (hperm.map key).nodup_iff.mpr hn2
  exact List.eq_of_perm_of_sorted hperm
    (sorted_key_strict key hs1 hn1) (sorted_key_strict key hs2 hn2)

/-- C10 (amended): the aligner sorts both inputs itself - its output on any
inputs equals its output on the sorted inputs, so the sorted-ascending
precondition is discharged internally and no NotSortedError path exists -
and the aligned output is invariant under permutation of either input's
rows provided the timestamps within each input are pairwise distinct; with
duplicate timestamps, which equal-timestamp reading is attached (and the
order of equal-timestamp spot rows) can depend on the input order. -/
theorem merge_asof_perm_invariant (spot spot' : List SpotFrame)
    (temps temps' : List TemperatureReading)
    (hs : List.Perm spot' spot) (ht : List.Perm temps' temps)
    (hns : (spot.map SpotFrame.timestamp).Nodup)
    (hnt : (temps.map TemperatureReading.ts).Nodup) :
    merge_asof_nearest spot' temps' = merge_asof_nearest spot temps ∧
    merge_asof_nearest spot temps =
      merge_asof_nearest (sortSpot spot) (sortTemps temps) := by
  have e1 : sortSpot spot' = sortSpot spot :=
    insertionSort_key_eq_of_perm SpotFrame.timestamp hs hns
  have e2 : sortTemps temps' = sortTemps temps :=
    insertionSort_key_eq_of_perm TemperatureReading.ts ht hnt
  have e3 : sortSpot (sortSpot spot) = sortSpot spot :=
    insertionSort_key_eq_of_perm SpotFrame.timestamp (List.perm_insertionSort _ _) hns
  have e4 : sortTemps (sortTemps temps) = sortTemps temps :=
    insertionSort_key_eq_of_perm TemperatureReading.ts (List.perm_insertionSort _ _) hnt
  constructor
  · unfold merge_asof_nearest
    rw [show sortSpot spot' = sortSpot spot from e1,
      show sortTemps temps' = sortTemps temps from e2]
  · unfold merge_asof_nearest
    rw [show sortSpot (sortSpot spot) = sortSpot spot from e3,
      show sortTemps (sortTemps temps) = sortTemps temps from e4]

/-- Witness for C10 at concrete inputs with distinct timestamps. -/
theorem merge_asof_perm_invariant_witness :
    merge_asof_nearest [sampleFrame 60, sampleFrame 0] [⟨50, 2⟩, ⟨0, 1⟩] =
      merge_asof_nearest [sampleFrame 0, sampleFrame 60] [⟨0, 1⟩, ⟨50, 2⟩] ∧
    merge_asof_nearest [sampleFrame 0, sampleFrame 60] [⟨0, 1⟩, ⟨50, 2⟩] =
      merge_asof_nearest (sortSpot [sampleFrame 0, sampleFrame 60])
        (sortTemps [⟨0, 1⟩, ⟨50, 2⟩]) :=
  merge_asof_perm_invariant [sampleFrame 0, sampleFrame 60] [sampleFrame 60, sampleFrame 0]
    [⟨0, 1⟩, ⟨50, 2⟩] [⟨50, 2⟩, ⟨0, 1⟩]
    (List.Perm.swap _ _ _) (List.Perm.swap _ _ _) (by decide) (by decide)

end SpotTemp
